import Mathlib

/-!
Shallow embedding of `ddns_aws_ipv6.py` (class `Route53DDNSIPv6`).

Python strings are embedded as `List Char`; record-level strings (hostnames,
record values) as `String`.  The three effectful collaborators are embedded as
explicit inputs:

* the interface table `/proc/net/if_inet6` becomes `Option (List (List Char))`
  (`none` = the file cannot be opened, `some lines` = its lines);
* the Route 53 `list_resource_record_sets` response becomes
  `Option (List RecordSetResp)` (`none` = no `ResourceRecordSets` key);
* the Route 53 `change_resource_record_sets` call is represented by the list
  of changes the code would submit; an early `return` (no call) is `none`.

Uncaught Python exceptions are embedded as `Except` errors.  The CPython
`ipaddress` library calls (`IPv6Address` construction, `is_global`, `str`)
are modelled after CPython's `Lib/ipaddress.py` (3.8-3.11 constants).
-/

/-- Whitespace characters recognised by Python `str.split()` (no argument):
space, tab, newline, carriage return, vertical tab, form feed. -/
def isPySpace (c : Char) : Bool :=
  c = ' ' ∨ c = '\t' ∨ c = '\n' ∨ c = '\x0d' ∨ c = Char.ofNat 11 ∨ c = Char.ofNat 12

/-- Helper for `pySplitWS`: accumulates the current field (reversed). -/
def pySplitWSAux : List Char → List Char → List (List Char)
  | [], cur => if cur = [] then [] else [cur.reverse]
  | c :: cs, cur =>
    if isPySpace c then
      if cur = [] then pySplitWSAux cs [] else cur.reverse :: pySplitWSAux cs []
    else pySplitWSAux cs (c :: cur)

/-- Python `line.split()`: split on runs of whitespace, dropping empty fields. -/
def pySplitWS (l : List Char) : List (List Char) := pySplitWSAux l []

/-- Helper for `pySplitOn`: accumulates the current piece (reversed). -/
def pySplitOnAux (sep : Char) : List Char → List Char → List (List Char)
  | [], cur => [cur.reverse]
  | c :: cs, cur =>
    if c = sep then cur.reverse :: pySplitOnAux sep cs []
    else pySplitOnAux sep cs (c :: cur)

/-- Python `s.split(sep)` for a one-character separator: keeps empty pieces. -/
def pySplitOn (sep : Char) (l : List Char) : List (List Char) := pySplitOnAux sep l []

/-- Python `sep.join(pieces)` for a one-character separator. -/
def pyJoin (sep : Char) : List (List Char) → List Char
  | [] => []
  | [p] => p
  | p :: q :: ps => p ++ sep :: pyJoin sep (q :: ps)

/-- Helper for `pyPartition`. -/
def pyPartitionAux (sep : Char) : List Char → List Char → List Char × Option (List Char)
  | [], acc => (acc.reverse, none)
  | c :: cs, acc =>
    if c = sep then (acc.reverse, some cs) else pyPartitionAux sep cs (c :: acc)

/-- Python `s.partition(sep)` for a one-character separator: the part before
the first `sep` and, when `sep` occurs, the part after it. -/
def pyPartition (sep : Char) (l : List Char) : List Char × Option (List Char) :=
  pyPartitionAux sep l []

/-- CPython `_HEX_DIGITS = frozenset('0123456789ABCDEFabcdef')`, by ASCII code. -/
def isHexDigitPy (c : Char) : Bool :=
  decide ((48 ≤ c.toNat ∧ c.toNat ≤ 57) ∨ (97 ≤ c.toNat ∧ c.toNat ≤ 102) ∨
    (65 ≤ c.toNat ∧ c.toNat ≤ 70))

/-- Value of one hexadecimal digit character (0 for non-digits; only applied
under an `isHexDigitPy` guard). ASCII: '0' = 48, 'a' = 97, 'A' = 65. -/
def hexDigitVal (c : Char) : Nat :=
  if 48 ≤ c.toNat ∧ c.toNat ≤ 57 then c.toNat - 48
  else if 97 ≤ c.toNat ∧ c.toNat ≤ 102 then c.toNat - 87
  else if 65 ≤ c.toNat ∧ c.toNat ≤ 70 then c.toNat - 55
  else 0

/-- Lowercase hexadecimal digit character for `d < 16`, as produced by
Python `'%x'` formatting. -/
def hexChar (d : Nat) : Char :=
  if d < 10 then Char.ofNat (48 + d) else Char.ofNat (87 + d)

/-- Four-digit lowercase hexadecimal rendering of a 16-bit group, the form in
which `/proc/net/if_inet6` prints each group of an address. -/
def toHex4 (g : Nat) : List Char :=
  [hexChar (g / 4096 % 16), hexChar (g / 256 % 16), hexChar (g / 16 % 16), hexChar (g % 16)]

/-- Drops leading `'0'` characters but keeps a final one (so `"0000"` becomes
`"0"`). -/
def stripLeadingZeros : List Char → List Char
  | [] => []
  | c :: rest => if c = '0' ∧ rest ≠ [] then stripLeadingZeros rest else c :: rest

/-- Python `'%x' % g` for `g < 65536`: unpadded lowercase hexadecimal. -/
def toHexUnpadded (g : Nat) : List Char := stripLeadingZeros (toHex4 g)

/-- Value of a list of hexadecimal digit characters, most significant first
(Python `int(s, 16)`). -/
def hexVal (l : List Char) : Nat := l.foldl (fun a c => 16 * a + hexDigitVal c) 0

/-- CPython `IPv6Address._parse_hextet`: at most 4 hex digits, nonempty. -/
def parseHextet (l : List Char) : Option Nat :=
  if l ≠ [] ∧ l.all isHexDigitPy ∧ l.length ≤ 4 then some (hexVal l) else none

/-- Parses every piece with `parseHextet`, failing if any piece fails. -/
def parseHextets : List (List Char) → Option (List Nat)
  | [] => some []
  | p :: ps =>
    match parseHextet p, parseHextets ps with
    | some v, some vs => some (v :: vs)
    | _, _ => none

/-- ASCII decimal digit. -/
def isDecDigit (c : Char) : Bool := decide (48 ≤ c.toNat ∧ c.toNat ≤ 57)

/-- Value of a list of decimal digit characters (Python `int(s, 10)`). -/
def decVal (l : List Char) : Nat := l.foldl (fun a c => 10 * a + (c.toNat - 48)) 0

/-- CPython `IPv4Address._parse_octet`: 1-3 decimal digits, no leading zero,
at most 255. -/
def parseOctet : List Char → Option Nat
  | [] => none
  | c :: rest =>
    if (c :: rest).all isDecDigit ∧ (c :: rest).length ≤ 3 ∧ (rest = [] ∨ c ≠ '0') ∧
        decVal (c :: rest) ≤ 255 then
      some (decVal (c :: rest))
    else none

/-- Parses every dotted piece with `parseOctet`, failing if any fails. -/
def parseOctets : List (List Char) → Option (List Nat)
  | [] => some []
  | p :: ps =>
    match parseOctet p, parseOctets ps with
    | some v, some vs => some (v :: vs)
    | _, _ => none

/-- CPython `IPv4Address._ip_int_from_string`: exactly four octets. -/
def parseIPv4 (l : List Char) : Option Nat :=
  match parseOctets (pySplitOn '.' l) with
  | some [a, b, c, d] => some (((a * 256 + b) * 256 + c) * 256 + d)
  | _ => none

/-- Left fold combining 16-bit groups into an address value
(CPython `ip_int << 16 | hextet_value`). -/
def combine (vals : List Nat) (acc : Nat) : Nat :=
  vals.foldl (fun a v => a * 65536 + v) acc

/-- Number of empty pieces in a list of pieces. -/
def countEmpty (ps : List (List Char)) : Nat :=
  (ps.filter (fun p => decide (p = []))).length

/-- Index (offset by the second argument) of the first empty piece. -/
def idxOfEmpty : List (List Char) → Nat → Option Nat
  | [], _ => none
  | p :: ps, i => if p = [] then some i else idxOfEmpty ps (i + 1)

/-- CPython `IPv6Address._ip_int_from_string`: split on `':'`, expand a
trailing embedded IPv4 address, locate at most one `'::'` gap, and fold the
hextets around the gap.  `none` is `AddressValueError`. -/
def parseIPv6Core (addr : List Char) : Option Nat :=
  let parts0 := pySplitOn ':' addr
  if parts0.length < 3 then none
  else
    match
      (if '.' ∈ parts0.getLastD [] then
        (parseIPv4 (parts0.getLastD [])).map fun v4 =>
          parts0.dropLast ++ [toHexUnpadded (v4 / 65536), toHexUnpadded (v4 % 65536)]
      else some parts0) with
    | none => none
    | some parts =>
      if 9 < parts.length then none
      else
        if 2 ≤ countEmpty ((parts.drop 1).dropLast) then none
        else
          match idxOfEmpty ((parts.drop 1).dropLast) 1 with
          | some skipIdx =>
            let hi := if parts.headD [] = [] then skipIdx - 1 else skipIdx
            if parts.headD [] = [] ∧ hi ≠ 0 then none
            else
              let lo0 := parts.length - skipIdx - 1
              let lo := if parts.getLastD [] = [] then lo0 - 1 else lo0
              if parts.getLastD [] = [] ∧ lo ≠ 0 then none
              else if 8 - (hi + lo) < 1 then none
              else
                match parseHextets (parts.take hi),
                    parseHextets (parts.drop (parts.length - lo)) with
                | some hiV, some loV =>
                  some (combine loV (combine hiV 0 * 65536 ^ (8 - (hi + lo))))
                | _, _ => none
          | none =>
            if parts.length ≠ 8 then none
            else if parts.headD [] = [] then none
            else if parts.getLastD [] = [] then none
            else
              match parseHextets parts with
              | some vs => some (combine vs 0)
              | none => none

/-- CPython `IPv6Address.__init__` on a string: reject `'/'`, split off a
`%scope_id` suffix (validated, then discarded — scoped addresses cannot occur
in `/proc/net/if_inet6` address fields), then parse the address proper.
The resulting address is its 128-bit numeric value. -/
def parseIPv6 (s : List Char) : Option Nat :=
  if '/' ∈ s then none
  else
    match pyPartition '%' s with
    | (addr, none) => parseIPv6Core addr
    | (addr, some scope) =>
      if scope = [] ∨ '%' ∈ scope then none else parseIPv6Core addr

/-- CPython `_IPv6Constants._private_networks` (3.8-3.11): `::1/128`,
`::/128`, `::ffff:0:0/96`, `100::/64`, `2001::/23`, `2001:2::/48`,
`2001:db8::/32`, `2001:10::/28`, `fc00::/7`, `fe80::/10`.  Membership in a
prefix of length `p` is equality of the top `p` bits. -/
def isPrivateV6 (n : Nat) : Bool :=
  decide (n = 1 ∨ n = 0 ∨ n / 2 ^ 32 = 0xffff ∨ n / 2 ^ 64 = 0x0100000000000000 ∨
    n / 2 ^ 105 = 0x100080 ∨ n / 2 ^ 80 = 0x200100020000 ∨
    n / 2 ^ 96 = 0x20010db8 ∨ n / 2 ^ 100 = 0x2001001 ∨
    n / 2 ^ 121 = 0x7e ∨ n / 2 ^ 118 = 0x3fa)

/-- CPython `IPv6Address.is_global` (3.8-3.11): `not self.is_private`. -/
def isGlobal (n : Nat) : Bool := !isPrivateV6 n

/-- CPython `IPv6Address.is_link_local`: membership in `fe80::/10`. -/
def isLinkLocal (n : Nat) : Bool := decide (n / 2 ^ 118 = 0x3fa)

/-- CPython `IPv6Address.is_loopback`: the address `::1`. -/
def isLoopback (n : Nat) : Bool := decide (n = 1)

/-- CPython `IPv6Address.is_unspecified`: the address `::`. -/
def isUnspecified (n : Nat) : Bool := decide (n = 0)

/-- Slices of four characters, as produced by
`ipv6_address[i:i+4] for i in range(0, len(ipv6_address), 4)`. -/
def chunks4 : List Char → List (List Char)
  | [] => []
  | [a] => [[a]]
  | [a, b] => [[a, b]]
  | [a, b, c] => [[a, b, c]]
  | a :: b :: c :: d :: rest => [a, b, c, d] :: chunks4 rest

/-- Lines 54-61 of the source: if the address field already contains a colon
it is used as is, otherwise colons are inserted every four characters. -/
def formatAddr (a : List Char) : List Char :=
  if ':' ∈ a then a else pyJoin ':' (chunks4 a)

/-- Errors the extractor can raise: the `open` call failing (no handler in the
source) and `IndexError` from `parts[5]` on a short line. -/
inductive ExtractErr where
  | sourceUnavailable
  | indexError
deriving DecidableEq, Repr

/-- Lines 49-69 of the source, for one line of the table: split on whitespace,
index fields 5 (interface name, `IndexError` if absent) and 0 (address),
normalise, parse (an `AddressValueError` is caught and the entry skipped), and
keep the address when `is_global`. -/
def processLine (line : List Char) : Except ExtractErr (List Nat) :=
  match pySplitWS line with
  | p0 :: _ :: _ :: _ :: _ :: p5 :: _ =>
    if p5 = "eth0".toList then
      match parseIPv6 (formatAddr p0) with
      | some ip => .ok (if isGlobal ip then [ip] else [])
      | none => .ok []
    else .ok []
  | _ => .error .indexError

/-- The `for line in if_inet6` loop: accumulates `ipv6_addresses`, stopping at
the first uncaught exception. -/
def extractLines : List (List Char) → Except ExtractErr (List Nat)
  | [] => .ok []
  | l :: rest =>
    match processLine l with
    | .ok xs =>
      match extractLines rest with
      | .ok ys => .ok (xs ++ ys)
      | .error e => .error e
    | .error e => .error e

/-- `_get_public_ipv6_addresses`: `none` input means `/proc/net/if_inet6`
cannot be opened — the source has no handler around `open`, so that failure
is an error, not an empty result. -/
def getPublicIPv6 : Option (List (List Char)) → Except ExtractErr (List Nat)
  | none => .error .sourceUnavailable
  | some lines => extractLines lines

/-- The eight 16-bit groups of a 128-bit address value, most significant
first (CPython `_string_from_ip_int` hextets). -/
def ipv6Hextets (n : Nat) : List Nat :=
  [n / 2 ^ 112 % 65536, n / 2 ^ 96 % 65536, n / 2 ^ 80 % 65536, n / 2 ^ 64 % 65536,
    n / 2 ^ 48 % 65536, n / 2 ^ 32 % 65536, n / 2 ^ 16 % 65536, n % 65536]

/-- CPython `_string_from_ip_int` best zero-run search: state is
(index, current start, current length, best start, best length); the best run
is only replaced by a strictly longer one, so the leftmost longest run wins. -/
def bestZeroRunAux : List Nat → Nat → Nat → Nat → Nat → Nat → Nat × Nat
  | [], _, _, _, bs, bl => (bs, bl)
  | v :: vs, i, cs, cl, bs, bl =>
    if v = 0 then
      let cs1 := if cl = 0 then i else cs
      let cl1 := cl + 1
      if bl < cl1 then bestZeroRunAux vs (i + 1) cs1 cl1 cs1 cl1
      else bestZeroRunAux vs (i + 1) cs1 cl1 bs bl
    else bestZeroRunAux vs (i + 1) cs 0 bs bl

/-- Start index and length of the leftmost longest run of zero hextets. -/
def bestZeroRun (vals : List Nat) : Nat × Nat := bestZeroRunAux vals 0 0 0 0 0

/-- CPython `str(IPv6Address)`: lowercase hextets with the leftmost longest
zero run of length at least two compressed to `'::'`. -/
def ipv6Str (n : Nat) : String :=
  let vals := ipv6Hextets n
  let br := bestZeroRun vals
  if 1 < br.2 then
    String.mk (pyJoin ':'
      ((if br.1 = 0 then [[]] else []) ++ (vals.take br.1).map toHexUnpadded ++ [[]] ++
        (vals.drop (br.1 + br.2)).map toHexUnpadded ++
        (if br.1 + br.2 = 8 then [[]] else [])))
  else String.mk (pyJoin ':' (vals.map toHexUnpadded))

/-- A Route 53 `ResourceRecordSet` fragment as built by the source:
`Name`, `Type`, `TTL`, and the `Value` fields of `ResourceRecords`. -/
structure ResourceRecordSet where
  name : String
  rtype : String
  ttl : Nat
  records : List String
deriving DecidableEq, Repr

/-- One entry of the `ChangeBatch`: an `Action` and its record set. -/
structure Change where
  action : String
  rrset : ResourceRecordSet
deriving DecidableEq, Repr

/-- The UPSERT change built for one new address (lines 107-121). -/
def mkUpsert (hostname : String) (address : String) : Change :=
  ⟨"UPSERT", ⟨hostname ++ ".", "AAAA", 300, [address]⟩⟩

/-- The CREATE change built when no record exists (lines 125-139). -/
def mkCreate (hostname : String) (values : List String) : Change :=
  ⟨"CREATE", ⟨hostname ++ ".", "AAAA", 300, values⟩⟩

/-- Lines 96-139 of `_update_route53_aaaa_record`: given the parsed desired
addresses and the existing record values, the change list that would be
submitted to `change_resource_record_sets`, or `none` when the code returns
early (record already up to date) and never invokes the provider change
call. -/
def buildPlan (hostname : String) (desired : List Nat) (existing : List String) :
    Option (List Change) :=
  if existing ≠ [] then
    let newAddresses := (desired.map ipv6Str).filter fun s => decide (s ∉ existing)
    if newAddresses = [] then none
    else some (newAddresses.map (mkUpsert hostname))
  else some [mkCreate hostname (desired.map ipv6Str)]

/-- One record set of a `list_resource_record_sets` response: its `Name`,
`Type`, and the `Value` fields of its `ResourceRecords`. -/
structure RecordSetResp where
  name : String
  rtype : String
  values : List String
deriving DecidableEq, Repr

/-- Error the record reader can raise: `IndexError` from
`response['ResourceRecordSets'][0]` on an empty list. -/
inductive ReaderErr where
  | indexError
deriving DecidableEq, Repr

/-- `_get_existing_aaaa_record_values` after the provider call: `none` models
a response without the `ResourceRecordSets` key; otherwise the first record
set is taken (`IndexError` if the list is empty) and its values are used only
when its name and type equal the requested `f'{hostname}.'` and `'AAAA'`. -/
def getExistingAAAA (hostname : String) : Option (List RecordSetResp) →
    Except ReaderErr (List String)
  | none => .ok []
  | some [] => .error .indexError
  | some (r :: _) =>
    .ok (if r.name = hostname ++ "." ∧ r.rtype = "AAAA" then r.values else [])

/-- Parameters of the `list_resource_record_sets` call (lines 75-80). -/
structure ListRequest where
  hostedZoneId : String
  startRecordName : String
  startRecordType : String
  maxItems : String
deriving DecidableEq, Repr

/-- The reader's query: start at `f'{hostname}.'`, type `AAAA`, one item. -/
def mkListRequest (zoneId hostname : String) : ListRequest :=
  ⟨zoneId, hostname ++ ".", "AAAA", "1"⟩

/-- The undelimited 32-hex-character table form of an address given by its
eight groups, as `/proc/net/if_inet6` prints it. -/
def tableForm (gs : List Nat) : List Char := (gs.map toHex4).flatten

/-- An already-delimited textual form of the same groups: unpadded lowercase
groups joined with colons. -/
def delimForm (gs : List Nat) : List Char := pyJoin ':' (gs.map toHexUnpadded)

/-- The 128-bit value denoted by eight 16-bit groups. -/
def groupsVal (gs : List Nat) : Nat := combine gs 0

/-- The parsed address `2001:db8::1` (spec scenario value). -/
def ipA : Nat := 0x20010db8000000000000000000000001

/-- The parsed address `2001:db8::2` (spec scenario value). -/
def ipB : Nat := 0x20010db8000000000000000000000002

/-- The parsed address `2600::1`, which is globally routable. -/
def ipG : Nat := 0x26000000000000000000000000000001

/-- A well-formed table line assigning `2600::1` to `eth0`. -/
def goodLine : List Char := "26000000000000000000000000000001 02 40 00 80     eth0".toList

/-- A table line for `eth0` whose address field is not valid hexadecimal. -/
def badLine : List Char := "zz000000000000000000000000000001 02 40 00 80     eth0".toList

/-- A table line with fewer than six whitespace-separated fields. -/
def shortLine : List Char := "fe80000000000000 02 40".toList

/-- Every hexadecimal digit character has value below 16. -/
theorem hexDigitVal_lt (c : Char) : hexDigitVal c < 16 := by
  unfold hexDigitVal
  split_ifs <;> omega

/-- For `d < 16`, `hexChar d` is a hexadecimal digit with value `d` and is
none of the separator characters the parser inspects. -/
theorem hexChar_props (d : Nat) (hd : d < 16) :
    isHexDigitPy (hexChar d) = true ∧ hexDigitVal (hexChar d) = d ∧
      hexChar d ≠ ':' ∧ hexChar d ≠ '.' ∧ hexChar d ≠ '%' ∧ hexChar d ≠ '/' := by
  interval_cases d <;> refine ⟨by decide, by decide, by decide, by decide, by decide, by decide⟩

/-- Every character of `toHex4 g` is a hexadecimal digit character. -/
theorem mem_toHex4 {c : Char} {g : Nat} (h : c ∈ toHex4 g) :
    ∃ d, d < 16 ∧ c = hexChar d := by
  simp only [toHex4, List.mem_cons, List.mem_singleton, List.not_mem_nil, or_false] at h
  rcases h with rfl | rfl | rfl | rfl
  · exact ⟨g / 4096 % 16, Nat.mod_lt _ (by omega), rfl⟩
  · exact ⟨g / 256 % 16, Nat.mod_lt _ (by omega), rfl⟩
  · exact ⟨g / 16 % 16, Nat.mod_lt _ (by omega), rfl⟩
  · exact ⟨g % 16, Nat.mod_lt _ (by omega), rfl⟩

/-- The four-digit rendering is never empty. -/
theorem toHex4_ne_nil (g : Nat) : toHex4 g ≠ [] := by simp [toHex4]

/-- The four-digit rendering parses back to the group value. -/
theorem parseHextet_toHex4 {g : Nat} (hg : g < 65536) : parseHextet (toHex4 g) = some g := by
  have h1 := (hexChar_props (g / 4096 % 16) (Nat.mod_lt _ (by omega)))
  have h2 := (hexChar_props (g / 256 % 16) (Nat.mod_lt _ (by omega)))
  have h3 := (hexChar_props (g / 16 % 16) (Nat.mod_lt _ (by omega)))
  have h4 := (hexChar_props (g % 16) (Nat.mod_lt _ (by omega)))
  unfold parseHextet
  rw [if_pos]
  · congr 1
    simp only [toHex4, hexVal, List.foldl_cons, List.foldl_nil]
    rw [h1.2.1, h2.2.1, h3.2.1, h4.2.1]
    omega
  · refine ⟨by simp [toHex4], ?_, by simp [toHex4]⟩
    simp [toHex4, List.all_cons, h1.1, h2.1, h3.1, h4.1]

/-- Dropping leading zeros only removes characters. -/
theorem mem_stripLeadingZeros {c : Char} : ∀ {l : List Char},
    c ∈ stripLeadingZeros l → c ∈ l := by
  intro l
  induction l with
  | nil => simp [stripLeadingZeros]
  | cons a rest ih =>
    intro h
    unfold stripLeadingZeros at h
    split_ifs at h with hc
    · exact List.mem_cons_of_mem a (ih h)
    · exact h

/-- Dropping leading zeros preserves nonemptiness. -/
theorem stripLeadingZeros_ne_nil : ∀ {l : List Char}, l ≠ [] → stripLeadingZeros l ≠ [] := by
  intro l
  induction l with
  | nil => simp
  | cons a rest ih =>
    intro _
    unfold stripLeadingZeros
    split_ifs with hc
    · exact ih hc.2
    · simp

/-- Dropping leading zeros does not lengthen the list. -/
theorem stripLeadingZeros_length_le : ∀ (l : List Char),
    (stripLeadingZeros l).length ≤ l.length := by
  intro l
  induction l with
  | nil => simp [stripLeadingZeros]
  | cons a rest ih =>
    unfold stripLeadingZeros
    split_ifs with hc
    · exact le_trans ih (by simp)
    · simp

/-- Dropping leading zeros keeps the hexadecimal value. -/
theorem stripLeadingZeros_hexVal : ∀ (l : List Char),
    hexVal (stripLeadingZeros l) = hexVal l := by
  intro l
  induction l with
  | nil => rfl
  | cons a rest ih =>
    unfold stripLeadingZeros
    split_ifs with hc
    · rw [ih]
      obtain ⟨rfl, -⟩ := hc
      simp [hexVal, hexDigitVal]
    · rfl

/-- The unpadded rendering parses back to the group value. -/
theorem parseHextet_toHexUnpadded {g : Nat} (hg : g < 65536) :
    parseHextet (toHexUnpadded g) = some g := by
  have h4 := parseHextet_toHex4 hg
  unfold parseHextet at h4 ⊢
  split_ifs at h4 with hcond
  · rw [if_pos]
    · rw [Option.some_inj] at h4 ⊢
      rw [toHexUnpadded, stripLeadingZeros_hexVal, h4]
    · refine ⟨stripLeadingZeros_ne_nil hcond.1, ?_, ?_⟩
      · rw [List.all_eq_true]
        intro c hc
        exact (List.all_eq_true.mp hcond.2.1) c (mem_stripLeadingZeros hc)
      · exact le_trans (stripLeadingZeros_length_le _) hcond.2.2

/-- Characters of the unpadded rendering are hexadecimal digit characters. -/
theorem mem_toHexUnpadded {c : Char} {g : Nat} (h : c ∈ toHexUnpadded g) :
    ∃ d, d < 16 ∧ c = hexChar d :=
  mem_toHex4 (mem_stripLeadingZeros h)

/-- Splitting a separator-free list yields one piece. -/
theorem pySplitOnAux_no_sep {sep : Char} : ∀ {l : List Char}, sep ∉ l →
    ∀ acc, pySplitOnAux sep l acc = [acc.reverse ++ l] := by
  intro l
  induction l with
  | nil => intro _ acc; simp [pySplitOnAux]
  | cons c cs ih =>
    intro h acc
    have hc : ¬ c = sep := fun hcs => h (hcs ▸ List.mem_cons_self c cs)
    rw [pySplitOnAux, if_neg hc, ih (fun hm => h (List.mem_cons_of_mem c hm))]
    simp

/-- Splitting walks past one separator-free piece and its separator. -/
theorem pySplitOnAux_step {sep : Char} : ∀ {p : List Char}, sep ∉ p →
    ∀ rest acc, pySplitOnAux sep (p ++ sep :: rest) acc =
      (acc.reverse ++ p) :: pySplitOnAux sep rest [] := by
  intro p
  induction p with
  | nil => intro _ rest acc; simp [pySplitOnAux]
  | cons c cs ih =>
    intro h rest acc
    have hc : ¬ c = sep := fun hcs => h (hcs ▸ List.mem_cons_self c cs)
    rw [List.cons_append, pySplitOnAux, if_neg hc,
      ih (fun hm => h (List.mem_cons_of_mem c hm)) rest]
    simp

/-- Splitting on a separator inverts joining separator-free pieces. -/
theorem pySplitOn_pyJoin {sep : Char} : ∀ {ps : List (List Char)}, ps ≠ [] →
    (∀ p ∈ ps, sep ∉ p) → pySplitOn sep (pyJoin sep ps) = ps := by
  intro ps
  induction ps with
  | nil => intro h; exact absurd rfl h
  | cons p qs ih =>
    intro _ hsep
    match qs with
    | [] =>
      rw [pyJoin, pySplitOn, pySplitOnAux_no_sep (hsep p (by simp)) []]
      simp
    | q :: rs =>
      rw [pyJoin, pySplitOn, pySplitOnAux_step (hsep p (by simp))]
      rw [List.reverse_nil, List.nil_append]
      rw [show pySplitOnAux sep (pyJoin sep (q :: rs)) [] = pySplitOn sep (pyJoin sep (q :: rs)) from rfl]
      rw [ih (by simp) (fun r hr => hsep r (List.mem_cons_of_mem p hr))]

/-- A character of a join is the separator or a character of a piece. -/
theorem mem_pyJoin {sep c : Char} : ∀ {ps : List (List Char)}, c ∈ pyJoin sep ps →
    c = sep ∨ ∃ p ∈ ps, c ∈ p := by
  intro ps
  induction ps with
  | nil => intro h; simp [pyJoin] at h
  | cons p qs ih =>
    intro h
    match qs with
    | [] => exact Or.inr ⟨p, by simp, h⟩
    | q :: rs =>
      rw [pyJoin] at h
      rcases List.mem_append.mp h with hp | hrest
      · exact Or.inr ⟨p, by simp, hp⟩
      · rcases List.mem_cons.mp hrest with rfl | hj
        · exact Or.inl rfl
        · rcases ih hj with hs | ⟨r, hr, hcr⟩
          · exact Or.inl hs
          · exact Or.inr ⟨r, List.mem_cons_of_mem p hr, hcr⟩

/-- The separator occurs in a join of at least two pieces. -/
theorem sep_mem_pyJoin (sep : Char) (p q : List Char) (ps : List (List Char)) :
    sep ∈ pyJoin sep (p :: q :: ps) := by
  rw [pyJoin]
  exact List.mem_append.mpr (Or.inr (List.mem_cons_self _ _))

/-- Partitioning a separator-free list finds no separator. -/
theorem pyPartitionAux_no_sep {sep : Char} : ∀ {l : List Char}, sep ∉ l →
    ∀ acc, pyPartitionAux sep l acc = (acc.reverse ++ l, none) := by
  intro l
  induction l with
  | nil => intro _ acc; simp [pyPartitionAux]
  | cons c cs ih =>
    intro h acc
    have hc : ¬ c = sep := fun hcs => h (hcs ▸ List.mem_cons_self c cs)
    rw [pyPartitionAux, if_neg hc, ih (fun hm => h (List.mem_cons_of_mem c hm))]
    simp

/-- Partitioning a separator-free list returns it unchanged. -/
theorem pyPartition_no_sep {sep : Char} {l : List Char} (h : sep ∉ l) :
    pyPartition sep l = (l, none) := by
  rw [pyPartition, pyPartitionAux_no_sep h]
  rfl

/-- A successfully parsed hextet is nonempty. -/
theorem parseHextet_ne_nil {l : List Char} {v : Nat} (h : parseHextet l = some v) :
    l ≠ [] := by
  unfold parseHextet at h
  split_ifs at h with hc
  exact hc.1

/-- A piece made of hexadecimal digit characters contains no separator
character inspected by the parser. -/
theorem no_special_of_hexchars {p : List Char}
    (h : ∀ c ∈ p, ∃ d, d < 16 ∧ c = hexChar d) :
    ':' ∉ p ∧ '.' ∉ p ∧ '%' ∉ p ∧ '/' ∉ p := by
  refine ⟨fun hc => ?_, fun hc => ?_, fun hc => ?_, fun hc => ?_⟩
  · obtain ⟨d, hd, he⟩ := h _ hc
    exact (hexChar_props d hd).2.2.1 he.symm
  · obtain ⟨d, hd, he⟩ := h _ hc
    exact (hexChar_props d hd).2.2.2.1 he.symm
  · obtain ⟨d, hd, he⟩ := h _ hc
    exact (hexChar_props d hd).2.2.2.2.1 he.symm
  · obtain ⟨d, hd, he⟩ := h _ hc
    exact (hexChar_props d hd).2.2.2.2.2 he.symm

/-- Parsing the colon-join of eight hex-digit pieces folds their hextet
values: the walk through `parseIPv6` (no slash, no scope, eight nonempty
parts, no gap) ends in the plain eight-hextet fold. -/
theorem parse_eight
    (p0 p1 p2 p3 p4 p5 p6 p7 : List Char) (g0 g1 g2 g3 g4 g5 g6 g7 : Nat)
    (hm : ∀ p ∈ [p0, p1, p2, p3, p4, p5, p6, p7], ∀ c ∈ p, ∃ d, d < 16 ∧ c = hexChar d)
    (h0 : parseHextet p0 = some g0) (h1 : parseHextet p1 = some g1)
    (h2 : parseHextet p2 = some g2) (h3 : parseHextet p3 = some g3)
    (h4 : parseHextet p4 = some g4) (h5 : parseHextet p5 = some g5)
    (h6 : parseHextet p6 = some g6) (h7 : parseHextet p7 = some g7) :
    parseIPv6 (pyJoin ':' [p0, p1, p2, p3, p4, p5, p6, p7]) =
      some (combine [g0, g1, g2, g3, g4, g5, g6, g7] 0) := by
  have hs : ∀ p ∈ [p0, p1, p2, p3, p4, p5, p6, p7],
      ':' ∉ p ∧ '.' ∉ p ∧ '%' ∉ p ∧ '/' ∉ p :=
    fun p hp => no_special_of_hexchars (hm p hp)
  have hne0 := parseHextet_ne_nil h0
  have hne1 := parseHextet_ne_nil h1
  have hne2 := parseHextet_ne_nil h2
  have hne3 := parseHextet_ne_nil h3
  have hne4 := parseHextet_ne_nil h4
  have hne5 := parseHextet_ne_nil h5
  have hne6 := parseHextet_ne_nil h6
  have hne7 := parseHextet_ne_nil h7
  have hslash : '/' ∉ pyJoin ':' [p0, p1, p2, p3, p4, p5, p6, p7] := by
    intro hmem
    rcases mem_pyJoin hmem with heq | ⟨p, hp, hcp⟩
    · exact absurd heq (by decide)
    · exact (hs p hp).2.2.2 hcp
  have hpct : '%' ∉ pyJoin ':' [p0, p1, p2, p3, p4, p5, p6, p7] := by
    intro hmem
    rcases mem_pyJoin hmem with heq | ⟨p, hp, hcp⟩
    · exact absurd heq (by decide)
    · exact (hs p hp).2.2.1 hcp
  have hsplit : pySplitOn ':' (pyJoin ':' [p0, p1, p2, p3, p4, p5, p6, p7]) =
      [p0, p1, p2, p3, p4, p5, p6, p7] :=
    pySplitOn_pyJoin (by simp) (fun p hp => (hs p hp).1)
  have hdot : '.' ∉ p7 := (hs p7 (by simp)).2.1
  rw [parseIPv6, if_neg hslash, pyPartition_no_sep hpct]
  simp only [parseIPv6Core, hsplit]
  simp [hne0, hne1, hne2, hne3, hne4, hne5, hne6, hne7, hdot,
    countEmpty, idxOfEmpty, parseHextets, h0, h1, h2, h3, h4, h5, h6, h7,
    List.dropLast]

/-- Chunking the concatenation of four-character renderings recovers them. -/
theorem chunks4_flatten : ∀ (gs : List Nat),
    chunks4 ((gs.map toHex4).flatten) = gs.map toHex4 := by
  intro gs
  induction gs with
  | nil => rfl
  | cons g rest ih =>
    have hstep : chunks4 ((List.map toHex4 (g :: rest)).flatten) =
        toHex4 g :: chunks4 ((rest.map toHex4).flatten) := rfl
    rw [hstep, ih]
    rfl

/-- The colon is absent from the undelimited table form. -/
theorem colon_not_mem_tableForm (gs : List Nat) : ':' ∉ tableForm gs := by
  intro hc
  rw [tableForm] at hc
  obtain ⟨s, hs, hcs⟩ := List.mem_flatten.mp hc
  obtain ⟨g, -, rfl⟩ := List.mem_map.mp hs
  obtain ⟨d, hd, he⟩ := mem_toHex4 hcs
  exact (hexChar_props d hd).2.2.1 he.symm

/-- The table form of eight groups, after colon insertion, parses to the
fold of the groups. -/
theorem parse_tableForm (g0 g1 g2 g3 g4 g5 g6 g7 : Nat)
    (h0 : g0 < 65536) (h1 : g1 < 65536) (h2 : g2 < 65536) (h3 : g3 < 65536)
    (h4 : g4 < 65536) (h5 : g5 < 65536) (h6 : g6 < 65536) (h7 : g7 < 65536) :
    parseIPv6 (formatAddr (tableForm [g0, g1, g2, g3, g4, g5, g6, g7])) =
      some (combine [g0, g1, g2, g3, g4, g5, g6, g7] 0) := by
  rw [formatAddr, if_neg (colon_not_mem_tableForm _), tableForm, chunks4_flatten]
  have hmem : ∀ p ∈ [toHex4 g0, toHex4 g1, toHex4 g2, toHex4 g3, toHex4 g4,
      toHex4 g5, toHex4 g6, toHex4 g7], ∀ c ∈ p, ∃ d, d < 16 ∧ c = hexChar d := by
    intro p hp c hc
    simp only [List.mem_cons, List.mem_singleton, List.not_mem_nil, or_false] at hp
    rcases hp with rfl | rfl | rfl | rfl | rfl | rfl | rfl | rfl <;> exact mem_toHex4 hc
  exact parse_eight _ _ _ _ _ _ _ _ _ _ _ _ _ _ _ _ hmem
    (parseHextet_toHex4 h0) (parseHextet_toHex4 h1) (parseHextet_toHex4 h2)
    (parseHextet_toHex4 h3) (parseHextet_toHex4 h4) (parseHextet_toHex4 h5)
    (parseHextet_toHex4 h6) (parseHextet_toHex4 h7)

/-- The already-delimited unpadded form of eight groups parses to the same
fold of the groups. -/
theorem parse_delimForm (g0 g1 g2 g3 g4 g5 g6 g7 : Nat)
    (h0 : g0 < 65536) (h1 : g1 < 65536) (h2 : g2 < 65536) (h3 : g3 < 65536)
    (h4 : g4 < 65536) (h5 : g5 < 65536) (h6 : g6 < 65536) (h7 : g7 < 65536) :
    parseIPv6 (formatAddr (delimForm [g0, g1, g2, g3, g4, g5, g6, g7])) =
      some (combine [g0, g1, g2, g3, g4, g5, g6, g7] 0) := by
  have hc : ':' ∈ delimForm [g0, g1, g2, g3, g4, g5, g6, g7] :=
    sep_mem_pyJoin ':' (toHexUnpadded g0) (toHexUnpadded g1) _
  rw [formatAddr, if_pos hc, delimForm]
  have hmem : ∀ p ∈ [toHexUnpadded g0, toHexUnpadded g1, toHexUnpadded g2,
      toHexUnpadded g3, toHexUnpadded g4, toHexUnpadded g5, toHexUnpadded g6,
      toHexUnpadded g7], ∀ c ∈ p, ∃ d, d < 16 ∧ c = hexChar d := by
    intro p hp c hc2
    simp only [List.mem_cons, List.mem_singleton, List.not_mem_nil, or_false] at hp
    rcases hp with rfl | rfl | rfl | rfl | rfl | rfl | rfl | rfl <;> exact mem_toHexUnpadded hc2
  exact parse_eight _ _ _ _ _ _ _ _ _ _ _ _ _ _ _ _ hmem
    (parseHextet_toHexUnpadded h0) (parseHextet_toHexUnpadded h1)
    (parseHextet_toHexUnpadded h2) (parseHextet_toHexUnpadded h3)
    (parseHextet_toHexUnpadded h4) (parseHextet_toHexUnpadded h5)
    (parseHextet_toHexUnpadded h6) (parseHextet_toHexUnpadded h7)

/-- Folding hexadecimal digits from `acc < A` stays below `A * 16 ^ length`. -/
theorem hexfold_lt : ∀ (l : List Char) (acc A : Nat), acc < A →
    l.foldl (fun a c => 16 * a + hexDigitVal c) acc < A * 16 ^ l.length := by
  intro l
  induction l with
  | nil => intro acc A h; simpa using h
  | cons c cs ih =>
    intro acc A h
    have hv := hexDigitVal_lt c
    have hstep : 16 * acc + hexDigitVal c < 16 * A := by omega
    have hrec := ih (16 * acc + hexDigitVal c) (16 * A) hstep
    have hfold : (c :: cs).foldl (fun a ch => 16 * a + hexDigitVal ch) acc =
        cs.foldl (fun a ch => 16 * a + hexDigitVal ch) (16 * acc + hexDigitVal c) := rfl
    have hlen : (c :: cs).length = cs.length + 1 := rfl
    rw [hfold, hlen]
    calc cs.foldl (fun a ch => 16 * a + hexDigitVal ch) (16 * acc + hexDigitVal c)
        < (16 * A) * 16 ^ cs.length := hrec
      _ = A * 16 ^ (cs.length + 1) := by ring

/-- A parsed hextet value is below 65536. -/
theorem parseHextet_lt {l : List Char} {v : Nat} (h : parseHextet l = some v) :
    v < 65536 := by
  unfold parseHextet at h
  split_ifs at h with hc
  obtain rfl := Option.some.inj h
  have hb := hexfold_lt l 0 1 one_pos
  have h16 : (16 : Nat) ^ l.length ≤ 16 ^ 4 := Nat.pow_le_pow_right (by omega) hc.2.2
  have : hexVal l < 16 ^ l.length := by simpa [hexVal] using hb
  omega

/-- A parsed hextet list keeps the length of its pieces, every value below
65536. -/
theorem parseHextets_facts : ∀ {ps : List (List Char)} {vs : List Nat},
    parseHextets ps = some vs → vs.length = ps.length ∧ ∀ v ∈ vs, v < 65536 := by
  intro ps
  induction ps with
  | nil =>
    intro vs h
    obtain rfl := Option.some.inj h
    simp
  | cons p ps ih =>
    intro vs h
    unfold parseHextets at h
    cases hp : parseHextet p with
    | none => rw [hp] at h; exact absurd h (by simp)
    | some v =>
      cases hq : parseHextets ps with
      | none => rw [hp, hq] at h; exact absurd h (by simp)
      | some ws =>
        rw [hp, hq] at h
        obtain rfl := Option.some.inj h
        obtain ⟨hlen, hb⟩ := ih hq
        refine ⟨by simp [hlen], ?_⟩
        intro u hu
        rcases List.mem_cons.mp hu with rfl | hu2
        · exact parseHextet_lt hp
        · exact hb u hu2

/-- Combining values below 65536 from `acc < A` stays below
`A * 65536 ^ length`. -/
theorem combine_lt : ∀ (vs : List Nat) (acc A : Nat), (∀ v ∈ vs, v < 65536) →
    acc < A → combine vs acc < A * 65536 ^ vs.length := by
  intro vs
  induction vs with
  | nil => intro acc A _ h; simpa [combine] using h
  | cons v vs ih =>
    intro acc A hb h
    have hv : v < 65536 := hb v (by simp)
    have hstep : acc * 65536 + v < A * 65536 := by nlinarith
    have hrec := ih (acc * 65536 + v) (A * 65536) (fun u hu => hb u (by simp [hu])) hstep
    have hfold : combine (v :: vs) acc = combine vs (acc * 65536 + v) := rfl
    have hlen : (v :: vs).length = vs.length + 1 := rfl
    rw [hfold, hlen]
    calc combine vs (acc * 65536 + v) < (A * 65536) * 65536 ^ vs.length := hrec
      _ = A * 65536 ^ (vs.length + 1) := by ring

/-- Combining a high block, a zero gap, and a low block of at most eight
groups in total stays below `65536 ^ 8`. -/
theorem combine_block_lt (hiV loV : List Nat) (k : Nat)
    (hbhi : ∀ v ∈ hiV, v < 65536) (hblo : ∀ v ∈ loV, v < 65536)
    (hsum : hiV.length + k + loV.length ≤ 8) :
    combine loV (combine hiV 0 * 65536 ^ k) < 65536 ^ 8 := by
  have h1 : combine hiV 0 < 65536 ^ hiV.length := by
    simpa using combine_lt hiV 0 1 hbhi one_pos
  have hpow : (0 : Nat) < 65536 ^ k := Nat.pos_pow_of_pos k (by omega)
  have h2 : combine hiV 0 * 65536 ^ k < 65536 ^ (hiV.length + k) := by
    calc combine hiV 0 * 65536 ^ k < 65536 ^ hiV.length * 65536 ^ k :=
          Nat.mul_lt_mul_of_lt_of_le h1 le_rfl hpow
      _ = 65536 ^ (hiV.length + k) := (pow_add 65536 hiV.length k).symm
  have h3 := combine_lt loV _ _ hblo h2
  calc combine loV (combine hiV 0 * 65536 ^ k)
      < 65536 ^ (hiV.length + k) * 65536 ^ loV.length := h3
    _ = 65536 ^ (hiV.length + k + loV.length) := (pow_add 65536 _ _).symm
    _ ≤ 65536 ^ 8 := Nat.pow_le_pow_right (by omega) hsum

/-- Every value produced by the core parser fits in 128 bits. -/
theorem parseIPv6Core_lt {s : List Char} {n : Nat} (h : parseIPv6Core s = some n) :
    n < 65536 ^ 8 := by
  simp only [parseIPv6Core] at h
  split at h
  · exact absurd h (by simp)
  split at h
  · exact absurd h (by simp)
  rename_i parts hparts
  split at h
  · exact absurd h (by simp)
  split at h
  · exact absurd h (by simp)
  split at h
  · rename_i skipIdx hskip
    generalize hHI : (if parts.headD [] = [] then skipIdx - 1 else skipIdx) = hi at h
    generalize hLO : (if parts.getLastD [] = [] then parts.length - skipIdx - 1 - 1
      else parts.length - skipIdx - 1) = lo at h
    split at h
    · exact absurd h (by simp)
    split at h
    · exact absurd h (by simp)
    split at h
    · exact absurd h (by simp)
    rename_i hguard
    split at h
    · rename_i hiV loV hhi hlo
      obtain rfl := Option.some.inj h
      obtain ⟨hlenhi, hbhi⟩ := parseHextets_facts hhi
      obtain ⟨hlenlo, hblo⟩ := parseHextets_facts hlo
      rw [List.length_take] at hlenhi
      rw [List.length_drop] at hlenlo
      apply combine_block_lt _ _ _ hbhi hblo
      have hmin := Nat.min_le_left hi parts.length
      omega
    · exact absurd h (by simp)
  · split at h
    · exact absurd h (by simp)
    rename_i hlen8
    split at h
    · exact absurd h (by simp)
    split at h
    · exact absurd h (by simp)
    split at h
    · rename_i vs hvs
      obtain rfl := Option.some.inj h
      obtain ⟨hlen, hb⟩ := parseHextets_facts hvs
      have hc := combine_lt vs 0 1 hb one_pos
      have h8 : vs.length = 8 := by omega
      rw [h8] at hc
      omega
    · exact absurd h (by simp)

/-- Every value produced by the address parser fits in 128 bits. -/
theorem parseIPv6_lt {s : List Char} {n : Nat} (h : parseIPv6 s = some n) :
    n < 2 ^ 128 := by
  have h8 : (65536 : Nat) ^ 8 = 2 ^ 128 := by norm_num
  rw [parseIPv6] at h
  split at h
  · exact absurd h (by simp)
  · split at h
    · exact h8 ▸ parseIPv6Core_lt h
    · split at h
      · exact absurd h (by simp)
      · exact h8 ▸ parseIPv6Core_lt h

/-- A list of length at least six starts with six elements. -/
theorem exists_six_of_length {α : Type} : ∀ {l : List α}, 6 ≤ l.length →
    ∃ a b c d e f r, l = a :: b :: c :: d :: e :: f :: r := by
  intro l h
  match l with
  | a :: b :: c :: d :: e :: f :: r => exact ⟨a, b, c, d, e, f, r, rfl⟩
  | [] => simp at h
  | [_] => simp at h
  | [_, _] => simp at h
  | [_, _, _] => simp at h
  | [_, _, _, _] => simp at h
  | [_, _, _, _, _] => simp at h

/-- Every address kept by one line of the extractor loop is globally
routable and fits in 128 bits. -/
theorem processLine_mem {line : List Char} {xs : List Nat} {ip : Nat}
    (h : processLine line = .ok xs) (hip : ip ∈ xs) :
    isGlobal ip = true ∧ ip < 2 ^ 128 := by
  unfold processLine at h
  split at h
  · split_ifs at h with heth
    · split at h
      · rename_i v hv
        obtain rfl := Except.ok.inj h
        split_ifs at hip with hg
        · obtain rfl := List.mem_singleton.mp hip
          exact ⟨hg, parseIPv6_lt hv⟩
        · simp at hip
      · obtain rfl := Except.ok.inj h
        simp at hip
    · obtain rfl := Except.ok.inj h
      simp at hip
  · exact absurd h (by simp)

/-- Every address accumulated over the whole loop is globally routable and
fits in 128 bits. -/
theorem extractLines_mem : ∀ {lines : List (List Char)} {as : List Nat} {ip : Nat},
    extractLines lines = .ok as → ip ∈ as → isGlobal ip = true ∧ ip < 2 ^ 128 := by
  intro lines
  induction lines with
  | nil =>
    intro as ip h hip
    obtain rfl := Except.ok.inj h
    simp at hip
  | cons l rest ih =>
    intro as ip h hip
    unfold extractLines at h
    cases hl : processLine l with
    | error e => rw [hl] at h; exact absurd h (by simp)
    | ok xs =>
      rw [hl] at h
      cases hr : extractLines rest with
      | error e => rw [hr] at h; exact absurd h (by simp)
      | ok ys =>
        rw [hr] at h
        obtain rfl := Except.ok.inj h
        rcases List.mem_append.mp hip with hx | hy
        · exact processLine_mem hl hx
        · exact ih hr hy

/-- A line with at least six whitespace-separated fields is processed
without raising. -/
theorem processLine_ok_of_fields {line : List Char}
    (h : 6 ≤ (pySplitWS line).length) : ∃ xs, processLine line = .ok xs := by
  obtain ⟨a, b, c, d, e, f, r, hshape⟩ := exists_six_of_length h
  simp only [processLine, hshape]
  split_ifs
  · split
    · exact ⟨_, rfl⟩
    · exact ⟨[], rfl⟩
  · exact ⟨[], rfl⟩

/-- A line with fewer than six whitespace-separated fields raises
`IndexError` at `parts[5]`. -/
theorem processLine_short {line : List Char}
    (h : (pySplitWS line).length < 6) : processLine line = .error .indexError := by
  rcases hx : pySplitWS line with _ | ⟨a, _ | ⟨b, _ | ⟨c, _ | ⟨d, _ | ⟨e, _ | ⟨f, r⟩⟩⟩⟩⟩⟩
  · simp [processLine, hx]
  · simp [processLine, hx]
  · simp [processLine, hx]
  · simp [processLine, hx]
  · simp [processLine, hx]
  · simp [processLine, hx]
  · rw [hx] at h
    simp only [List.length_cons] at h
    omega

/-- A table whose lines all have at least six fields is processed without
raising. -/
theorem extractLines_ok_of_fields : ∀ {lines : List (List Char)},
    (∀ l ∈ lines, 6 ≤ (pySplitWS l).length) → ∃ as, extractLines lines = .ok as := by
  intro lines
  induction lines with
  | nil => intro _; exact ⟨[], rfl⟩
  | cons l rest ih =>
    intro hall
    obtain ⟨xs, hxs⟩ := processLine_ok_of_fields (hall l (by simp))
    obtain ⟨ys, hys⟩ := ih (fun m hm => hall m (List.mem_cons_of_mem l hm))
    exact ⟨xs ++ ys, by simp only [extractLines, hxs, hys]⟩

/-- A table containing a line with fewer than six fields makes the whole
loop raise `IndexError`. -/
theorem extractLines_err_of_short : ∀ {lines : List (List Char)},
    (∃ l ∈ lines, (pySplitWS l).length < 6) →
    extractLines lines = .error .indexError := by
  intro lines
  induction lines with
  | nil => intro h; simp at h
  | cons l rest ih =>
    intro h
    obtain ⟨m, hm, hlen⟩ := h
    rcases List.mem_cons.mp hm with rfl | hmr
    · simp only [extractLines, processLine_short hlen]
    · by_cases hl : (pySplitWS l).length < 6
      · simp only [extractLines, processLine_short hl]
      · obtain ⟨xs, hxs⟩ := @processLine_ok_of_fields l (by omega)
        have hr := ih ⟨m, hmr, hlen⟩
        simp only [extractLines, hxs, hr]

/-- A globally routable address is not link-local, loopback, or
unspecified (those ranges are in the private list). -/
theorem isGlobal_excludes {n : Nat} (h : isGlobal n = true) :
    isLinkLocal n = false ∧ isLoopback n = false ∧ isUnspecified n = false := by
  simp only [isGlobal, isPrivateV6, Bool.not_eq_true', decide_eq_false_iff_not] at h
  push_neg at h
  simp only [isLinkLocal, isLoopback, isUnspecified, decide_eq_false_iff_not]
  exact ⟨h.2.2.2.2.2.2.2.2.2, h.1, h.2.1⟩

/-- Building an UPSERT for the same hostname is injective in the address. -/
theorem mkUpsert_injective (h : String) : Function.Injective (mkUpsert h) := by
  intro a b hab
  have := congrArg (fun c => c.rrset.records) hab
  simpa [mkUpsert] using this

/-- Claim C1 (amended: restricted to non-empty desired address lists, which
is what the orchestrator guarantees the builder receives): a change
operation is emitted only when the desired textual address set differs from
the existing value set, and when the two sets are equal the builder emits
zero operations (`none`), so the provider change call is never invoked. -/
theorem c1_change_emitted_only_on_difference (h : String) (d : List Nat)
    (e : List String) (hd : d ≠ []) :
    ((∀ s, s ∈ d.map ipv6Str ↔ s ∈ e) → buildPlan h d e = none) ∧
    (∀ cs, buildPlan h d e = some cs → ¬ ∀ s, s ∈ d.map ipv6Str ↔ s ∈ e) := by
  constructor
  · intro hsame
    obtain ⟨a, d2, rfl⟩ := List.exists_cons_of_ne_nil hd
    have hmem : ipv6Str a ∈ e := (hsame (ipv6Str a)).mp (by simp)
    have hene : e ≠ [] := List.ne_nil_of_mem hmem
    simp only [buildPlan, if_pos hene]
    have hfilter : (((a :: d2).map ipv6Str).filter fun s => decide (s ∉ e)) = [] := by
      apply List.filter_eq_nil_iff.mpr
      intro s hs
      have hin : s ∈ e := (hsame s).mp hs
      simp [hin]
    rw [hfilter]
    simp
  · intro cs hcs hsame
    simp only [buildPlan] at hcs
    split_ifs at hcs with hene hfil
    · obtain ⟨s, hs⟩ := List.exists_mem_of_ne_nil _ hfil
      have hmf := List.mem_filter.mp hs
      have hsin : s ∈ e := (hsame s).mp hmf.1
      have hsout : s ∉ e := by simpa using hmf.2
      exact hsout hsin
    · obtain ⟨a, d2, rfl⟩ := List.exists_cons_of_ne_nil hd
      have hmem : ipv6Str a ∈ e := (hsame (ipv6Str a)).mp (by simp)
      rw [not_not.mp hene] at hmem
      simp at hmem

/-- Claim C1 witness: one address whose textual form already equals the one
existing record value produces zero operations. -/
theorem c1_change_witness :
    buildPlan "example.com" [ipA] ["2001:db8::1"] = none := by
  have hsame : ∀ s, s ∈ [ipA].map ipv6Str ↔ s ∈ ["2001:db8::1"] := by
    rw [show [ipA].map ipv6Str = ["2001:db8::1"] from by decide]
    exact fun s => Iff.rfl
  exact (c1_change_emitted_only_on_difference "example.com" [ipA] ["2001:db8::1"]
    (by simp)).1 hsame

/-- Claim C1 counterexample: with an empty desired list and an empty
existing list (sets equal, desired empty), the code still emits one CREATE
operation (with empty values) and invokes the provider change call. -/
theorem c1_empty_desired_counterexample :
    buildPlan "example.com" [] [] = some [mkCreate "example.com" []] := by rfl

/-- Claim C2: for every non-empty desired address list and empty existing
value list, the builder emits exactly one CREATE whose record set carries
all desired addresses as one multi-value record, named by the hostname (with
the provider's trailing dot) with type AAAA and TTL 300 (all fixed inside
`mkCreate`). -/
theorem c2_create_carries_all (h : String) (d : List Nat) (hd : d ≠ []) :
    buildPlan h d [] = some [mkCreate h (d.map ipv6Str)] := by
  simp only [buildPlan]
  rw [if_neg (by simp)]

/-- Claim C2 witness: spec scenario A — one discovered address, no existing
record, one CREATE carrying `2001:db8::1`. -/
theorem c2_create_witness :
    buildPlan "example.com" [ipA] [] = some [mkCreate "example.com" ["2001:db8::1"]] := by
  have H := c2_create_carries_all "example.com" [ipA] (by simp)
  rw [show [ipA].map ipv6Str = ["2001:db8::1"] from by decide] at H
  exact H

/-- Claim C3 (amended: "exactly one UPSERT per address" holds per occurrence
of a new address in the desired list, hence exactly once per address when
the desired textual forms are duplicate-free; the extractor does not
de-duplicate, so a duplicated table entry yields one UPSERT per occurrence):
for a duplicate-free desired list that is a strict superset of a non-empty
existing list, the builder emits the UPSERTs of exactly the new addresses,
in extractor order without sorting, one single-value record each with the
same name, type and TTL, and none for addresses already present. -/
theorem c3_upsert_per_new_address (h : String) (d : List Nat) (e : List String)
    (he : e ≠ []) (hsub : ∀ s ∈ e, s ∈ d.map ipv6Str)
    (hstrict : ∃ s ∈ d.map ipv6Str, s ∉ e)
    (hnd : (d.map ipv6Str).Nodup) :
    buildPlan h d e =
      some (((d.map ipv6Str).filter fun s => decide (s ∉ e)).map (mkUpsert h)) ∧
    (∀ s, s ∈ d.map ipv6Str → s ∉ e →
      ((((d.map ipv6Str).filter fun t => decide (t ∉ e)).map (mkUpsert h)).count
        (mkUpsert h s)) = 1) ∧
    (∀ s, s ∈ e →
      ((((d.map ipv6Str).filter fun t => decide (t ∉ e)).map (mkUpsert h)).count
        (mkUpsert h s)) = 0) := by
  refine ⟨?_, ?_, ?_⟩
  · simp only [buildPlan, if_pos he]
    obtain ⟨s, hs, hsout⟩ := hstrict
    have hmem : s ∈ (d.map ipv6Str).filter fun t => decide (t ∉ e) :=
      List.mem_filter.mpr ⟨hs, by simpa using hsout⟩
    rw [if_neg (List.ne_nil_of_mem hmem)]
  · intro s hs hsout
    rw [List.count_map_of_injective _ (mkUpsert h) (mkUpsert_injective h)]
    exact List.count_eq_one_of_mem (hnd.filter _)
      (List.mem_filter.mpr ⟨hs, by simpa using hsout⟩)
  · intro s hsin
    rw [List.count_map_of_injective _ (mkUpsert h) (mkUpsert_injective h)]
    rw [List.count_eq_zero]
    intro hmem
    have := (List.mem_filter.mp hmem).2
    simp at this
    exact this hsin

/-- Claim C3 witness: spec scenario B — existing `2001:db8::1`, discovered
`2001:db8::1` and `2001:db8::2`; exactly one UPSERT, for the new address. -/
theorem c3_upsert_witness :
    buildPlan "example.com" [ipA, ipB] ["2001:db8::1"] =
      some [mkUpsert "example.com" "2001:db8::2"] := by
  have H := c3_upsert_per_new_address "example.com" [ipA, ipB] ["2001:db8::1"]
    (by simp) (by decide) (by decide) (by decide)
  rw [H.1]
  decide

/-- Claim C3 counterexample: a desired list in which the new address appears
twice (a strict superset of the non-empty existing list as sets) produces
two UPSERTs for that one address, not exactly one. -/
theorem c3_duplicate_counterexample :
    buildPlan "example.com" [ipA, ipB, ipB] ["2001:db8::1"] =
      some [mkUpsert "example.com" "2001:db8::2", mkUpsert "example.com" "2001:db8::2"] ∧
    ((buildPlan "example.com" [ipA, ipB, ipB] ["2001:db8::1"]).getD []).count
      (mkUpsert "example.com" "2001:db8::2") = 2 := by
  exact ⟨by decide, by decide⟩

/-- Claim C4 (amended: the source has no handler around `open`, so an
unreadable table propagates the failure and the run fails; the extractor
returns an empty result only from a readable table, e.g. one with no
lines). -/
theorem c4_open_failure_propagates :
    getPublicIPv6 none = .error .sourceUnavailable ∧
    getPublicIPv6 (some []) = .ok [] := ⟨rfl, rfl⟩

/-- Claim C4 counterexample: on an unreadable table the extractor does not
report "no addresses found": it produces an error, which is not the empty
success result. -/
theorem c4_soft_fail_counterexample :
    getPublicIPv6 none = .error .sourceUnavailable ∧
    Except.error ExtractErr.sourceUnavailable ≠ Except.ok ([] : List Nat) :=
  ⟨rfl, by simp⟩

/-- Claim C5 (code bug): a provider response whose ResourceRecordSets list
is present but empty — the shape a provider returns when no record exists at
or after the start name — makes the reader raise IndexError at
`response['ResourceRecordSets'][0]` instead of returning the empty list; the
code returns the empty list only when the key is absent altogether. -/
theorem c5_empty_record_sets_bug :
    getExistingAAAA "example.com" (some []) = .error .indexError ∧
    getExistingAAAA "example.com" none = .ok [] := ⟨rfl, rfl⟩

/-- Claim C6: a returned record set whose name or type does not exactly
match the requested hostname-with-trailing-dot and AAAA is rejected: the
reader returns the empty value list, so a lexicographically-next record
never contributes values. -/
theorem c6_reject_mismatched_record (h : String) (r : RecordSetResp)
    (rest : List RecordSetResp) (hne : ¬(r.name = h ++ "." ∧ r.rtype = "AAAA")) :
    getExistingAAAA h (some (r :: rest)) = .ok [] := by
  simp only [getExistingAAAA]
  rw [if_neg hne]

/-- Claim C6 witness: a record for a different (alphabetically later) name
with values contributes nothing. -/
theorem c6_reject_witness :
    getExistingAAAA "example.com" (some [⟨"other.example.com.", "AAAA", ["2600::2"]⟩]) =
      .ok [] :=
  c6_reject_mismatched_record "example.com" _ _ (by decide)

/-- Claim C7: every address the extractor yields is a syntactically valid
IPv6 address value (it fits in 128 bits) classified globally routable, and
is never link-local, loopback, or unspecified; moreover a line (with enough
fields) whose address entry fails IPv6 parsing is silently skipped, not
raised. -/
theorem c7_only_global_addresses :
    (∀ lines as ip, getPublicIPv6 (some lines) = .ok as → ip ∈ as →
      isGlobal ip = true ∧ ip < 2 ^ 128 ∧ isLinkLocal ip = false ∧
        isLoopback ip = false ∧ isUnspecified ip = false) ∧
    (∀ line, 6 ≤ (pySplitWS line).length →
      parseIPv6 (formatAddr ((pySplitWS line).headD [])) = none →
      processLine line = .ok []) := by
  constructor
  · intro lines as ip h hip
    have hg := extractLines_mem h hip
    have hx := isGlobal_excludes hg.1
    exact ⟨hg.1, hg.2, hx.1, hx.2.1, hx.2.2⟩
  · intro line hlen hnone
    obtain ⟨a, b, c, d, e, f, r, hshape⟩ := exists_six_of_length hlen
    have hhead : (pySplitWS line).headD [] = a := by rw [hshape]; rfl
    rw [hhead] at hnone
    simp only [processLine, hshape, hnone]
    split_ifs <;> rfl

/-- Claim C7 witness: the table line carrying `2600::1` yields exactly that
address, which is global and in range; a line whose address entry is not
hexadecimal is skipped with no output and no error. -/
theorem c7_global_witness :
    (isGlobal ipG = true ∧ ipG < 2 ^ 128 ∧ isLinkLocal ipG = false ∧
      isLoopback ipG = false ∧ isUnspecified ipG = false) ∧
    processLine badLine = .ok [] := by
  constructor
  · exact c7_only_global_addresses.1 [goodLine] [ipG] ipG (by rfl) (by simp)
  · exact c7_only_global_addresses.2 badLine (by decide) (by rfl)

/-- Claim C8: for every IPv6 address given as eight 16-bit groups, parsing
its undelimited 32-hex-character table form (split into groups of four with
colons inserted by the extractor) and parsing an already-delimited unpadded
form of the same address yield equal parsed values, namely the group fold. -/
theorem c8_format_independence (g0 g1 g2 g3 g4 g5 g6 g7 : Nat)
    (h0 : g0 < 65536) (h1 : g1 < 65536) (h2 : g2 < 65536) (h3 : g3 < 65536)
    (h4 : g4 < 65536) (h5 : g5 < 65536) (h6 : g6 < 65536) (h7 : g7 < 65536) :
    parseIPv6 (formatAddr (tableForm [g0, g1, g2, g3, g4, g5, g6, g7])) =
      parseIPv6 (formatAddr (delimForm [g0, g1, g2, g3, g4, g5, g6, g7])) ∧
    parseIPv6 (formatAddr (tableForm [g0, g1, g2, g3, g4, g5, g6, g7])) =
      some (groupsVal [g0, g1, g2, g3, g4, g5, g6, g7]) := by
  have ht := parse_tableForm g0 g1 g2 g3 g4 g5 g6 g7 h0 h1 h2 h3 h4 h5 h6 h7
  have hd := parse_delimForm g0 g1 g2 g3 g4 g5 g6 g7 h0 h1 h2 h3 h4 h5 h6 h7
  exact ⟨ht.trans hd.symm, ht⟩

/-- Claim C8 witness: the two textual forms of `2001:db8::1` parse to the
same value. -/
theorem c8_format_witness :
    parseIPv6 (formatAddr (tableForm [0x2001, 0xdb8, 0, 0, 0, 0, 0, 1])) =
      parseIPv6 (formatAddr (delimForm [0x2001, 0xdb8, 0, 0, 0, 0, 0, 1])) ∧
    parseIPv6 (formatAddr (tableForm [0x2001, 0xdb8, 0, 0, 0, 0, 0, 1])) =
      some ipA := by
  have H := c8_format_independence 0x2001 0xdb8 0 0 0 0 0 1 (by decide) (by decide)
    (by decide) (by decide) (by decide) (by decide) (by decide) (by decide)
  exact ⟨H.1, H.2.trans (by decide)⟩

/-- Claim C9: the reader's query starts at the hostname with a trailing dot
and type AAAA, and every emitted CREATE or UPSERT record set carries the
hostname with a trailing dot, type AAAA, and TTL 300, in both branches. -/
theorem c9_trailing_dot_and_ttl (zid h : String) (d : List Nat)
    (e : List String) (cs : List Change) (hcs : buildPlan h d e = some cs)
    (c : Change) (hc : c ∈ cs) :
    (mkListRequest zid h).startRecordName = h ++ "." ∧
    (mkListRequest zid h).startRecordType = "AAAA" ∧
    c.rrset.name = h ++ "." ∧ c.rrset.rtype = "AAAA" ∧ c.rrset.ttl = 300 := by
  refine ⟨rfl, rfl, ?_⟩
  simp only [buildPlan] at hcs
  split_ifs at hcs with hene hfil
  · obtain rfl := Option.some.inj hcs
    obtain ⟨s, -, rfl⟩ := List.mem_map.mp hc
    exact ⟨rfl, rfl, rfl⟩
  · obtain rfl := Option.some.inj hcs
    obtain rfl := List.mem_singleton.mp hc
    exact ⟨rfl, rfl, rfl⟩

/-- Claim C9 witness: the concrete query and the concrete CREATE of scenario
A carry the dotted name, AAAA, and TTL 300. -/
theorem c9_trailing_dot_witness :
    (mkListRequest "Z123" "example.com").startRecordName = "example.com" ++ "." ∧
    (mkListRequest "Z123" "example.com").startRecordType = "AAAA" ∧
    (mkCreate "example.com" ["2001:db8::1"]).rrset.name = "example.com" ++ "." ∧
    (mkCreate "example.com" ["2001:db8::1"]).rrset.rtype = "AAAA" ∧
    (mkCreate "example.com" ["2001:db8::1"]).rrset.ttl = 300 :=
  c9_trailing_dot_and_ttl "Z123" "example.com" [ipA] []
    [mkCreate "example.com" ["2001:db8::1"]] (by decide)
    (mkCreate "example.com" ["2001:db8::1"]) (by simp)

/-- Claim C10: the extractor indexes the sixth whitespace-separated field of
every line; a table whose lines all have at least six fields is processed
totally (no exception), while any line with fewer than six fields makes the
extractor raise IndexError instead of skipping that line. -/
theorem c10_sixth_field_indexing (lines : List (List Char)) :
    ((∀ l ∈ lines, 6 ≤ (pySplitWS l).length) →
      ∃ as, getPublicIPv6 (some lines) = .ok as) ∧
    ((∃ l ∈ lines, (pySplitWS l).length < 6) →
      getPublicIPv6 (some lines) = .error .indexError) :=
  ⟨fun h => extractLines_ok_of_fields h, fun h => extractLines_err_of_short h⟩

/-- Claim C10 witness: a well-formed table is processed without raising; the
same table with a three-field line appended raises IndexError. -/
theorem c10_sixth_field_witness :
    (∃ as, getPublicIPv6 (some [goodLine]) = .ok as) ∧
    getPublicIPv6 (some [goodLine, shortLine]) = .error .indexError := by
  constructor
  · exact (c10_sixth_field_indexing [goodLine]).1 (by decide)
  · exact (c10_sixth_field_indexing [goodLine, shortLine]).2 ⟨shortLine, by simp, by decide⟩
